import Mathlib

/-!
Shallow embedding of the meta-transaction verification core of the
near-eth-gateway repository (files src/gateway/src/meta_parsing.rs,
src/gateway/src/types.rs, src/gateway/src/ecrecover.rs), together with
theorems settling the spec claims about it.

Conventions of the embedding:
* Byte strings (Rust `Vec<u8>` / `&[u8]`) are `List Nat`.
* `U256` is `Nat`; conversions through fixed-width byte arrays take the
  big-endian interpretation, exactly as `primitive_types` does.
* External crate primitives (keccak from `sha3`, the RLP list decoder
  from the `rlp` crate, the secp256k1 recovery core, the borsh envelope
  decoder) are injected as function parameters, mirroring the spec's own
  description of the hash primitive as an injected capability.  Code of
  the repository itself is embedded, never parameterised.
* A Rust panic (assert, slice-length assert, integer-overflow panic,
  out-of-bounds index) is modelled as `Option.none`; a returned
  `Err(ParsingError)` is `some (Except.error e)`.
-/

namespace Gateway

/-- Internal errors, from `meta_parsing.rs`. -/
inductive ParsingError where
  | ArgumentParseError
  | InvalidMetaTransactionMethodName
  | InvalidMetaTransactionFunctionArg
  | InvalidEcRecoverSignature
  | ArgsLengthMismatch
deriving DecidableEq, Repr

/-- Big-endian interpretation of a byte list, as `U256::from_big_endian`. -/
def beBytesToNat (l : List Nat) : Nat :=
  l.foldl (fun acc b => acc * 256 + b) 0

/-- Big-endian encoding of a number into `w` bytes, as `to_big_endian`. -/
def natToBeBytes (w : Nat) (n : Nat) : List Nat :=
  (List.range w).map (fun i => n / 256 ^ (w - 1 - i) % 256)

/-- `u256_to_arr` from types.rs: 32-byte big-endian encoding. -/
def u256_to_arr (n : Nat) : List Nat := natToBeBytes 32 n

/-- `arr_to_u256` from types.rs copies a 32-byte slice into a `RawU256`;
on 32-byte inputs (every keccak output) it is the identity. -/
def arr_to_u256 (l : List Nat) : List Nat := l

/-- UTF-8 bytes of a string; all strings in this development are ASCII,
where UTF-8 bytes coincide with the code points. -/
def strBytes (s : String) : List Nat := s.data.map Char.toNat

/-- `U256::as_u128` from the primitive-types crate: panics (`none`) when
the value does not fit in 128 bits. -/
def as_u128 (n : Nat) : Option Nat :=
  if n < 2 ^ 128 then some n else none

/-- `encode_address` from meta_parsing.rs: 12 zero bytes then the 20
address bytes. -/
def encode_address (addr : List Nat) : List Nat :=
  List.replicate 12 0 ++ addr

/-- The recursive argument type tree `ArgType` from meta_parsing.rs. -/
inductive ArgType where
  | address
  | uint
  | int
  | string
  | bool
  | bytes
  | byte (size : Nat)
  | custom (name : String)
  | array (length : Option Nat) (inner : ArgType)
deriving DecidableEq, Repr

/-- Tokens of the `type_lexer` module (logos-generated lexer). -/
inductive Token where
  | fixedBytes (n : Nat)
  | uintTok (n : Nat)
  | intTok (n : Nat)
  | boolTok
  | addressTok
  | bytesTok
  | stringTok
  | referenceType (n : Option Nat)
  | identifier (s : String)
  | errorTok
deriving DecidableEq, Repr

/-- Does `cs` start with the characters of `pre`? -/
def startsWithChars (pre : List Char) (cs : List Char) : Bool :=
  List.isPrefixOf pre cs

def isDigitChar (c : Char) : Bool := ('0' ≤ c) && (c ≤ '9')

def isIdentStart (c : Char) : Bool :=
  c.isAlpha || c = '_' || c = '$'

def isIdentChar (c : Char) : Bool :=
  c.isAlphanum || c = '_' || c = '$'

/-- Decimal strings accepted by the `uint`/`int` suffix regex:
8, 16, ..., 256 (multiples of 8 written without leading zeros). -/
def canonicalIntSuffixes : List String :=
  (List.range 32).map (fun i => toString (8 * (i + 1)))

/-- Longest match of the regex
`byte|bytes[1-2][0-9]?|bytes3[0-2]?|bytes[4-9]` at the head of `cs`,
returned as the number of characters matched. -/
def matchFixedBytes (cs : List Char) : Option Nat :=
  if startsWithChars "bytes".data cs then
    let rest := cs.drop 5
    match rest with
    | d1 :: d2 :: _ =>
      if (d1 = '1' || d1 = '2') && isDigitChar d2 then some 7
      else if d1 = '3' && (d2 = '0' || d2 = '1' || d2 = '2') then some 7
      else if ('1' ≤ d1 && d1 ≤ '9') then some 6
      else some 4
    | [d1] =>
      if '1' ≤ d1 && d1 ≤ '9' then some 6 else some 4
    | [] => some 4
  else if startsWithChars "byte".data cs then some 4
  else none

/-- Decimal value of a digit-character list (no validation). -/
def digitsToNat (ds : List Char) : Nat :=
  ds.foldl (fun acc d => acc * 10 + (d.toNat - '0'.toNat)) 0

/-- Longest match of `uint(8|16|...|256)?` (or the `int` twin) at the
head of `cs`: the literal prefix, optionally extended by the longest
canonical decimal suffix. Returns (matched length, lexed size payload),
where the payload follows `fixed_int_size`: bare prefix lexes to 32,
otherwise the parsed suffix. -/
def matchIntLike (pre : List Char) (cs : List Char) : Option (Nat × Nat) :=
  if startsWithChars pre cs then
    let rest := cs.drop pre.length
    let try3 := rest.take 3
    let try2 := rest.take 2
    let try1 := rest.take 1
    if try3.length = 3 && canonicalIntSuffixes.contains (String.mk try3) then
      some (pre.length + 3, digitsToNat try3)
    else if try2.length = 2 && canonicalIntSuffixes.contains (String.mk try2) then
      some (pre.length + 2, digitsToNat try2)
    else if try1.length = 1 && canonicalIntSuffixes.contains (String.mk try1) then
      some (pre.length + 1, digitsToNat try1)
    else
      some (pre.length, 32)
  else none

/-- Longest match of a literal keyword at the head of `cs`. -/
def matchLit (lit : List Char) (cs : List Char) : Option Nat :=
  if startsWithChars lit cs then some lit.length else none

/-- Longest match of `\[[0-9]*\]` at the head of `cs`: bracket, maximal
digit run, closing bracket. Payload per `reference_type_size`: `none`
for `[]`, otherwise the parsed number when it fits in a `u64`. -/
def matchReference (cs : List Char) : Option (Nat × Option Nat) :=
  match cs with
  | '[' :: rest =>
    let ds := rest.takeWhile isDigitChar
    let after := rest.drop ds.length
    match after with
    | ']' :: _ =>
      if ds.isEmpty then some (ds.length + 2, none)
      else
        let n := digitsToNat ds
        if n < 2 ^ 64 then some (ds.length + 2, some n)
        else some (ds.length + 2, none)
    | _ => none
  | _ => none

/-- Longest match of `[a-zA-Z_$][a-zA-Z0-9_$]*` at the head of `cs`. -/
def matchIdentifier (cs : List Char) : Option Nat :=
  match cs with
  | c :: rest =>
    if isIdentStart c then some (1 + (rest.takeWhile isIdentChar).length)
    else none
  | [] => none

/-- One lexing step of the logos lexer: maximal munch over all token
patterns; on equal lengths the concrete token patterns win over the
generic identifier pattern (logos priority, confirmed by the
repository's own lexer tests). An unmatchable head character yields the
`#[error]` token. Returns the token and the number of characters
consumed (at least 1 on nonempty input). -/
def nextToken (cs : List Char) : Token × Nat :=
  let cands : List (Token × Nat) :=
    (match matchFixedBytes cs with
     | some 4 => [(Token.fixedBytes 1, 4)]
     | some len =>
       [(Token.fixedBytes (digitsToNat ((cs.take len).drop 5)), len)]
     | none => []) ++
    (match matchIntLike "uint".data cs with
     | some (len, n) => [(Token.uintTok n, len)]
     | none => []) ++
    (match matchIntLike "int".data cs with
     | some (len, n) => [(Token.intTok n, len)]
     | none => []) ++
    (match matchLit "bool".data cs with
     | some len => [(Token.boolTok, len)]
     | none => []) ++
    (match matchLit "address".data cs with
     | some len => [(Token.addressTok, len)]
     | none => []) ++
    (match matchLit "bytes".data cs with
     | some len => [(Token.bytesTok, len)]
     | none => []) ++
    (match matchLit "string".data cs with
     | some len => [(Token.stringTok, len)]
     | none => []) ++
    (match matchReference cs with
     | some (len, payload) => [(Token.referenceType payload, len)]
     | none => []) ++
    (match matchIdentifier cs with
     | some len => [(Token.identifier (String.mk (cs.take len)), len)]
     | none => [])
  let best := cands.foldl
    (fun acc c => match acc with
      | none => some c
      | some b => if c.2 > b.2 then some c else some b)
    none
  match best with
  | some (tok, len) => (tok, len)
  | none => (Token.errorTok, 1)

/-- Run the lexer to exhaustion (fuel bounds the number of tokens; each
step consumes at least one character, so `cs.length` fuel suffices). -/
def lexAux : Nat → List Char → List Token
  | 0, _ => []
  | _, [] => []
  | fuel + 1, cs =>
    let (tok, len) := nextToken cs
    tok :: lexAux fuel (cs.drop (max len 1))

def lexTokens (s : String) : List Token := lexAux s.data.length s.data

/-- The token-consuming loop of `parse_type`: every non-array token
replaces the type built so far, an array suffix wraps it, and a lexer
error or an array suffix with no preceding base type fails. -/
def parseTypeLoop (inner : Option ArgType) :
    List Token → Except ParsingError (Option ArgType)
  | [] => Except.ok inner
  | t :: ts =>
    match t with
    | Token.addressTok => parseTypeLoop (some ArgType.address) ts
    | Token.boolTok => parseTypeLoop (some ArgType.bool) ts
    | Token.stringTok => parseTypeLoop (some ArgType.string) ts
    | Token.bytesTok => parseTypeLoop (some ArgType.bytes) ts
    | Token.identifier s => parseTypeLoop (some (ArgType.custom s)) ts
    | Token.fixedBytes n => parseTypeLoop (some (ArgType.byte n)) ts
    | Token.intTok _ => parseTypeLoop (some ArgType.int) ts
    | Token.uintTok _ => parseTypeLoop (some ArgType.uint) ts
    | Token.referenceType len =>
      match inner with
      | none => Except.error ParsingError.ArgumentParseError
      | some t => parseTypeLoop (some (ArgType.array len t)) ts
    | Token.errorTok => Except.error ParsingError.ArgumentParseError

/-- `parse_type` from meta_parsing.rs. -/
def parse_type (field_type : String) : Except ParsingError ArgType :=
  match parseTypeLoop none (lexTokens field_type) with
  | Except.ok none => Except.error ParsingError.ArgumentParseError
  | Except.ok (some t) => Except.ok t
  | Except.error e => Except.error e

/-- An argument of an evm method definition (`Arg` in meta_parsing.rs). -/
structure Arg where
  name : String
  type_raw : String
  t : ArgType
deriving DecidableEq, Repr

/-- A parsed evm method definition (`Method` in meta_parsing.rs). -/
structure Method where
  name : String
  raw : String
  args : List Arg
deriving DecidableEq, Repr

/-- `MethodAndTypes`: the primary method, auxiliary struct declarations
in order, and the name-to-declaration map (the Rust `HashMap` modelled
as an association list queried by first match). -/
structure MethodAndTypes where
  method : Method
  type_sequences : List String
  types : List (String × Method)
deriving DecidableEq, Repr

/-- `is_arg_start`: first char of an evm method arg name. -/
def is_arg_start (c : Char) : Bool := c.isAlpha || c = '_'

/-- `is_arg_char`: subsequent char of an evm method arg name. -/
def is_arg_char (c : Char) : Bool := c.isAlphanum || c = '_'

/-- `parse_ident` from meta_parsing.rs. -/
def parse_ident (cs : List Char) :
    Except ParsingError (String × List Char) :=
  match cs with
  | [] => Except.error ParsingError.InvalidMetaTransactionMethodName
  | c :: rest =>
    if is_arg_start c then
      let tail := rest.takeWhile is_arg_char
      Except.ok (String.mk (c :: tail), rest.drop tail.length)
    else Except.error ParsingError.InvalidMetaTransactionMethodName

/-- `parse_type_raw` from meta_parsing.rs: take everything before the
first space; the remainder starts at that space. No space is an error. -/
def parse_type_raw (cs : List Char) :
    Except ParsingError (String × List Char) :=
  let pre := cs.takeWhile (fun c => c ≠ ' ')
  if pre.length = cs.length then
    Except.error ParsingError.InvalidMetaTransactionMethodName
  else Except.ok (String.mk pre, cs.drop pre.length)

/-- `consume` from meta_parsing.rs. -/
def consume (cs : List Char) (c : Char) :
    Except ParsingError (List Char) :=
  match cs with
  | [] => Except.error ParsingError.InvalidMetaTransactionMethodName
  | c0 :: rest =>
    if c0 = c then Except.ok rest
    else Except.error ParsingError.InvalidMetaTransactionMethodName

/-- `Arg::parse` from meta_parsing.rs; the `?` operator is the explicit
error match. -/
def Arg.parse (cs : List Char) : Except ParsingError (Arg × List Char) :=
  match parse_type_raw cs with
  | Except.error e => Except.error e
  | Except.ok (type_raw, remains) =>
    match parse_type type_raw with
    | Except.error e => Except.error e
    | Except.ok t =>
      match consume remains ' ' with
      | Except.error e => Except.error e
      | Except.ok remains =>
        match parse_ident remains with
        | Except.error e => Except.error e
        | Except.ok (name, remains) =>
          Except.ok (⟨name, type_raw, t⟩, remains)

/-- The `while remains.starts_with(',')` loop of `Arg::parse_args`.
Each iteration consumes at least one character, so fuel equal to the
input length never runs out; exhaustion is modelled as a parse error. -/
def parseArgsLoop : Nat → List Arg → List Char →
    Except ParsingError (List Arg × List Char)
  | 0, _, _ => Except.error ParsingError.InvalidMetaTransactionMethodName
  | fuel + 1, args, cs =>
    match cs with
    | ',' :: rest =>
      match Arg.parse rest with
      | Except.error e => Except.error e
      | Except.ok (arg, r) => parseArgsLoop fuel (args ++ [arg]) r
    | _ => Except.ok (args, cs)

/-- `Arg::parse_args` from meta_parsing.rs. -/
def Arg.parse_args (cs : List Char) :
    Except ParsingError (List Arg × List Char) :=
  match consume cs '(' with
  | Except.error e => Except.error e
  | Except.ok remains =>
    match remains with
    | [] => Except.error ParsingError.InvalidMetaTransactionMethodName
    | first :: _ =>
      match
        (if is_arg_start first then
          match Arg.parse remains with
          | Except.error e => Except.error e
          | Except.ok (arg, r) => parseArgsLoop r.length [arg] r
        else Except.ok (([] : List Arg), remains)) with
      | Except.error e => Except.error e
      | Except.ok (args, remains) =>
        match consume remains ')' with
        | Except.error e => Except.error e
        | Except.ok remains => Except.ok (args, remains)

/-- `Method::parse` from meta_parsing.rs; `raw` is the exact consumed
prefix of the definition text. -/
def Method.parse (cs : List Char) :
    Except ParsingError (Method × List Char) :=
  match parse_ident cs with
  | Except.error e => Except.error e
  | Except.ok (name, remains) =>
    match Arg.parse_args remains with
    | Except.error e => Except.error e
    | Except.ok (args, remains) =>
      Except.ok
        (⟨name, String.mk (cs.take (cs.length - remains.length)), args⟩,
          remains)

/-- `HashMap::insert` observed through `get`: later insertions shadow
earlier ones, modelled by consing and first-match lookup. -/
def hashInsert (m : List (String × Method)) (k : String) (v : Method) :
    List (String × Method) :=
  (k, v) :: m

/-- The `while !types.is_empty()` loop of `MethodAndTypes::parse`. Each
iteration consumes at least one character, so fuel equal to the input
length never runs out; exhaustion is modelled as a parse error. -/
def parseTypesLoop : Nat → List String → List (String × Method) →
    List Char → Except ParsingError (List String × List (String × Method))
  | 0, _, _, _ => Except.error ParsingError.InvalidMetaTransactionMethodName
  | fuel + 1, seqs, tys, cs =>
    match cs with
    | [] => Except.ok (seqs, tys)
    | _ =>
      match Method.parse cs with
      | Except.error e => Except.error e
      | Except.ok (ty, remains) =>
        parseTypesLoop fuel (seqs ++ [ty.name]) (hashInsert tys ty.name ty)
          remains

/-- `MethodAndTypes::parse` from meta_parsing.rs. -/
def MethodAndTypes.parse (method_def : String) :
    Except ParsingError MethodAndTypes :=
  match Method.parse method_def.data with
  | Except.error e => Except.error e
  | Except.ok (method, types) =>
    match parseTypesLoop (types.length + 1) [] [] types with
    | Except.error e => Except.error e
    | Except.ok (seqs, tys) => Except.ok ⟨method, seqs, tys⟩

/-- `method_signature` from meta_parsing.rs:
"name(type_raw1,type_raw2,...)". -/
def method_signature (mt : MethodAndTypes) : String :=
  mt.method.name ++ "(" ++
    String.intercalate "," (mt.method.args.map (fun a => a.type_raw)) ++ ")"

/-- The recursive RLP value tree `RlpValue` from meta_parsing.rs. -/
inductive RlpValue where
  | bytes (b : List Nat)
  | list (l : List RlpValue)
deriving Repr

/-- `rlp_decode` from meta_parsing.rs: the rlp crate's `as_list` is the
injected primitive; its decoder error is mapped to
`InvalidMetaTransactionFunctionArg`. -/
def rlp_decode (rlpAsList : List Nat → Except Unit (List RlpValue))
    (args : List Nat) : Except ParsingError (List RlpValue) :=
  match rlpAsList args with
  | Except.ok l => Except.ok l
  | Except.error _ => Except.error ParsingError.InvalidMetaTransactionFunctionArg

/-- A computation that may return a typed parsing error (`some (error e)`),
succeed (`some (ok a)`), or panic (`none`). -/
def PRes (α : Type) : Type := Option (Except ParsingError α)

/-- Bind for `PRes`: panics and errors short-circuit. -/
def pbind {α β : Type} (x : PRes α) (f : α → PRes β) : PRes β :=
  match x with
  | none => none
  | some (Except.error e) => some (Except.error e)
  | some (Except.ok a) => f a

/-- `eip_712_rlp_value` from meta_parsing.rs: guard that the value is
`Bytes`, not `List`. -/
def eip_712_rlp_value (value : RlpValue) (f : List Nat → PRes (List Nat)) :
    PRes (List Nat) :=
  match value with
  | RlpValue.list _ =>
    some (Except.error ParsingError.InvalidMetaTransactionFunctionArg)
  | RlpValue.bytes b => f b

mutual

/-- `eip_712_hash_argument` from meta_parsing.rs, mutually with the
element folds of its `Array` and `Custom` cases. The `Array` and
`Custom` cases open with the `eip_712_rlp_list` guard (a `Bytes` value
is a hard error) inlined so that the recursion is structural on the
value. Panics of the source (`H160::from_slice` on a non-20-byte slice,
`U256::from_big_endian` on a more-than-32-byte slice, the
`struct_type.args[i]` index on a list longer than the declared fields)
are `none`. -/
def eip_712_hash_argument (keccak : List Nat → List Nat) (ty : ArgType)
    (value : RlpValue) (types : List (String × Method)) :
    PRes (List Nat) :=
  match ty with
  | ArgType.string => eip_712_rlp_value value
      (fun b => some (Except.ok (keccak b)))
  | ArgType.bytes => eip_712_rlp_value value
      (fun b => some (Except.ok (keccak b)))
  | ArgType.byte _ => eip_712_rlp_value value (fun b => some (Except.ok b))
  | ArgType.uint => eip_712_rlp_value value (fun b =>
      if b.length ≤ 32 then
        some (Except.ok (u256_to_arr (beBytesToNat b)))
      else none)
  | ArgType.int => eip_712_rlp_value value (fun b =>
      if b.length ≤ 32 then
        some (Except.ok (u256_to_arr (beBytesToNat b)))
      else none)
  | ArgType.bool => eip_712_rlp_value value (fun b =>
      if b.length ≤ 32 then
        some (Except.ok (u256_to_arr (beBytesToNat b)))
      else none)
  | ArgType.address => eip_712_rlp_value value (fun b =>
      if b.length = 20 then some (Except.ok (encode_address b))
      else none)
  | ArgType.array _ inner =>
    match value with
    | RlpValue.bytes _ =>
      some (Except.error ParsingError.InvalidMetaTransactionFunctionArg)
    | RlpValue.list l =>
      pbind (eip712ArrayElems keccak inner l types)
        (fun r => some (Except.ok (keccak r)))
  | ArgType.custom type_name =>
    match value with
    | RlpValue.bytes _ =>
      some (Except.error ParsingError.InvalidMetaTransactionFunctionArg)
    | RlpValue.list l =>
      match types.lookup type_name with
      | none =>
        some (Except.error ParsingError.InvalidMetaTransactionFunctionArg)
      | some struct_type =>
        pbind (eip712StructFields keccak struct_type.args l types)
          (fun fields =>
            some (Except.ok (keccak (keccak (strBytes struct_type.raw) ++
              fields))))

/-- Concatenated hashes of the elements of an `Array` argument. -/
def eip712ArrayElems (keccak : List Nat → List Nat) (inner : ArgType)
    (l : List RlpValue) (types : List (String × Method)) :
    PRes (List Nat) :=
  match l with
  | [] => some (Except.ok [])
  | e :: rest =>
    pbind (eip_712_hash_argument keccak inner e types) (fun h =>
      pbind (eip712ArrayElems keccak inner rest types) (fun hs =>
        some (Except.ok (h ++ hs))))

/-- Concatenated hashes of the fields of a `Custom` argument value; the
value list is walked with `enumerate` while the declared field list is
indexed, so a value list longer than the declared fields is an
out-of-bounds panic (`none`). -/
def eip712StructFields (keccak : List Nat → List Nat) (args : List Arg)
    (l : List RlpValue) (types : List (String × Method)) :
    PRes (List Nat) :=
  match l with
  | [] => some (Except.ok [])
  | e :: rest =>
    match args with
    | [] => none
    | a :: args_rest =>
      pbind (eip_712_hash_argument keccak a.t e types) (fun h =>
        pbind (eip712StructFields keccak args_rest rest types) (fun hs =>
          some (Except.ok (h ++ hs))))

end

/-- `near_erc712_domain` from meta_parsing.rs, with the imperative
byte-vector accumulation mirrored by successive appends. -/
def near_erc712_domain (keccak : List Nat → List Nat) (chain_id : Nat) :
    List Nat :=
  let bytes : List Nat := []
  let bytes := bytes ++ keccak (strBytes
    "EIP712Domain(string name,string version,uint256 chainId)")
  let bytes := bytes ++ keccak (strBytes "NEAR")
  let bytes := bytes ++ keccak (strBytes "1")
  let bytes := bytes ++ u256_to_arr chain_id
  arr_to_u256 (keccak bytes)

/-- `InternalMetaCallArgs` from types.rs; the 20-byte sender address is
a byte list, numeric fields are widened to `Nat`. -/
structure InternalMetaCallArgs where
  sender : List Nat
  nonce : Nat
  fee_amount : Nat
  fee_address : String
  contract_address : String
  method_name : String
  value : Nat
  args : List Nat
deriving DecidableEq, Repr

/-- The struct-encoding steps 1-3 of `prepare_meta_call_args`: builds
the `Arguments` type text, the composite `NearTx` type text, and the
struct byte buffer, and (for a non-empty method) parses the method,
hashes the signature and each decoded argument. Returns the assembled
struct bytes together with the canonical method name and the
`arg_bytes` buffer. Errors and panics short-circuit exactly as in the
source. -/
def prepareStructPart (keccak : List Nat → List Nat)
    (rlpAsList : List Nat → Except Unit (List RlpValue))
    (account_id : List Nat) (input : InternalMetaCallArgs) :
    PRes (List Nat × String × List Nat) :=
  pbind
    (if input.method_name = "" then some (Except.ok "Arguments()")
     else
       match input.method_name.data.findIdx? (fun c => c = '(') with
       | none =>
         some (Except.error ParsingError.InvalidMetaTransactionMethodName)
       | some method_arg_start =>
         some (Except.ok ("Arguments" ++
           String.mk (input.method_name.data.drop method_arg_start))))
    (fun arguments =>
  let types := "NearTx(string gatewayId,uint256 nonce,uint256 feeAmount,address feeReceiver,address receiver,uint256 value,string method,Arguments arguments)" ++ arguments
  let bytes := keccak (strBytes types) ++ keccak account_id ++
    u256_to_arr input.nonce ++ u256_to_arr input.fee_amount ++
    keccak (strBytes input.fee_address) ++
    keccak (strBytes input.contract_address) ++ u256_to_arr input.value
  if input.method_name = "" then
    some (Except.ok (bytes, "", []))
  else
    pbind (some (MethodAndTypes.parse input.method_name)) (fun methods =>
    let method_sig := method_signature methods
    let bytes := bytes ++ keccak (strBytes method_sig)
    pbind (some (rlp_decode rlpAsList input.args)) (fun args_decoded =>
    if methods.method.args.length ≠ args_decoded.length then
      some (Except.error ParsingError.ArgsLengthMismatch)
    else
      pbind (eip712StructFields keccak methods.method.args args_decoded
          methods.types)
        (fun arg_hashes =>
        let arg_bytes := keccak (strBytes arguments) ++ arg_hashes
        let bytes := bytes ++ keccak arg_bytes
        some (Except.ok (bytes, methods.method.name, arg_bytes))))))

/-- `prepare_meta_call_args` from meta_parsing.rs. The final digest is
computed exactly as in the source: a fresh buffer `0x19 0x01 ||
domain_separator` is extended with its own keccak hash and hashed; the
struct bytes assembled by `prepareStructPart` are dropped, because the
source shadows its `bytes` vector at that point. -/
def prepare_meta_call_args (keccak : List Nat → List Nat)
    (rlpAsList : List Nat → Except Unit (List RlpValue))
    (domain_separator : List Nat) (account_id : List Nat)
    (input : InternalMetaCallArgs) :
    PRes (List Nat × String × List Nat) :=
  pbind (prepareStructPart keccak rlpAsList account_id input)
    (fun out =>
    let bytes := [0x19, 0x01] ++ domain_separator
    let bytes := bytes ++ keccak ([0x19, 0x01] ++ domain_separator)
    some (Except.ok (arr_to_u256 (keccak bytes), out.2.1, out.2.2)))

/-- `ecrecover` from ecrecover.rs. The secp256k1 recovery core is the
injected `recoverFn`, returning the 65-byte serialized public key when
recovery succeeds. The length assert on the signature, the
`Message::parse_slice(...).unwrap()` (the digest must be 32 bytes), and
the address-slice assert are panics (`none`). -/
def ecrecover (keccak : List Nat → List Nat)
    (recoverFn : List Nat → List Nat → Nat → Option (List Nat))
    (hash : List Nat) (signature : List Nat) :
    Option (Except Unit (List Nat)) :=
  if signature.length = 65 then
    if hash.length = 32 then
      let v := signature.getD 64 0
      let sigBytes := signature.take 64
      let bit := if v ≤ 26 then v else v - 27
      if bit < 4 then
        match recoverFn hash sigBytes bit with
        | some public_key =>
          let r := keccak (public_key.drop 1)
          if r.length = 32 then some (Except.ok (r.drop 12)) else none
        | none => some (Except.error ())
      else some (Except.error ())
    else none
  else none

/-- The wire envelope `MetaCallArgs` from types.rs, after borsh
decoding: fixed-width numeric fields as big-endian byte lists. -/
structure MetaCallArgs where
  signature : List Nat
  v : Nat
  nonce : List Nat
  fee_amount : List Nat
  fee_address : String
  contract_address : String
  value : List Nat
  method : String
  args : List Nat
deriving DecidableEq, Repr

/-- `parse_meta_call` from meta_parsing.rs. The borsh envelope decoder
of the near-sdk crate is the injected `borshDec`. The `as_u128`
widenings of `fee_amount` and `value` panic (`none`) on words that do
not fit in 128 bits, exactly as `U256::as_u128` does. -/
def parse_meta_call (keccak : List Nat → List Nat)
    (rlpAsList : List Nat → Except Unit (List RlpValue))
    (recoverFn : List Nat → List Nat → Nat → Option (List Nat))
    (borshDec : List Nat → Except Unit MetaCallArgs)
    (domain_separator : List Nat) (account_id : List Nat)
    (args : List Nat) : PRes InternalMetaCallArgs :=
  match borshDec args with
  | Except.error _ => some (Except.error ParsingError.ArgumentParseError)
  | Except.ok meta_tx =>
    let nonce := beBytesToNat meta_tx.nonce
    match as_u128 (beBytesToNat meta_tx.fee_amount) with
    | none => none
    | some fee_amount =>
      match as_u128 (beBytesToNat meta_tx.value) with
      | none => none
      | some value =>
        pbind (prepare_meta_call_args keccak rlpAsList domain_separator
            account_id
            ⟨List.replicate 20 0, nonce, fee_amount, meta_tx.fee_address,
              meta_tx.contract_address, meta_tx.method, value, meta_tx.args⟩)
          (fun out =>
          if meta_tx.signature.length = 64 then
            let signature := meta_tx.signature ++ [meta_tx.v]
            match ecrecover keccak recoverFn out.1 signature with
            | none => none
            | some (Except.ok sender) =>
              some (Except.ok ⟨sender, nonce, fee_amount,
                meta_tx.fee_address, meta_tx.contract_address, out.2.1,
                value, out.2.2⟩)
            | some (Except.error _) =>
              some (Except.error ParsingError.InvalidEcRecoverSignature)
          else none)

/-- Is an `ArgType` a leaf (expects an RLP `Bytes` value) as opposed to
an `Array`/`Custom` type (expects an RLP `List` value)? -/
def isLeafType : ArgType → Bool
  | ArgType.address => true
  | ArgType.uint => true
  | ArgType.int => true
  | ArgType.string => true
  | ArgType.bool => true
  | ArgType.bytes => true
  | ArgType.byte _ => true
  | ArgType.custom _ => false
  | ArgType.array _ _ => false

/-- The final-digest formula of spec section 4.6 step 4, stated on the
spec's words for comparison with the code:
keccak256(0x19 || 0x01 || domain_separator || hash_struct). -/
def specDigestFormula (keccak : List Nat → List Nat)
    (domain_separator : List Nat) (hash_struct : List Nat) : List Nat :=
  keccak ([0x19, 0x01] ++ domain_separator ++ hash_struct)

/-- A concrete stand-in for the injected keccak capability, used to
instantiate witnesses: a deterministic 32-byte digest of the input. -/
def toyKeccak (l : List Nat) : List Nat :=
  natToBeBytes 32 ((l.foldl (fun a b => a * 313 + b + 1) 7) % 2 ^ 256)

/-- A concrete stand-in for the injected rlp `as_list` primitive that
always fails to decode. -/
def rlpAlwaysErr : List Nat → Except Unit (List RlpValue) :=
  fun _ => Except.error ()

/-- A concrete stand-in for the injected rlp `as_list` primitive that
decodes to a single 21-byte string item (the value the real decoder
returns on the 23-byte input 0xd5 0x95 || 21 bytes). -/
def rlpOneItem21 : List Nat → Except Unit (List RlpValue) :=
  fun _ => Except.ok [RlpValue.bytes (List.replicate 21 0)]

/-- A concrete stand-in for the injected rlp `as_list` primitive that
decodes to the empty list (the value the real decoder returns on the
one-byte input 0xc0). -/
def rlpEmptyList : List Nat → Except Unit (List RlpValue) :=
  fun _ => Except.ok []

/-- A concrete stand-in for the injected secp256k1 recovery core that
never recovers a key. -/
def recoverNone : List Nat → List Nat → Nat → Option (List Nat) :=
  fun _ _ _ => none

/-- A concrete stand-in for the injected borsh envelope decoder that
returns an envelope whose 32-byte fee_amount word is 2^248 (its top
byte is 1), with everything else trivial. -/
def borshFeeTooBig : List Nat → Except Unit MetaCallArgs :=
  fun _ => Except.ok ⟨List.replicate 64 0, 27, List.replicate 32 0,
    1 :: List.replicate 31 0, "", "", List.replicate 32 0, "", []⟩

/-- A one-field struct declaration used as a counterexample fixture. -/
def structS : Method :=
  ⟨"S", "S(uint256 a)", [⟨"a", "uint256", ArgType.uint⟩]⟩

/-- The 32-byte zero word. -/
def zeros32 : List Nat := List.replicate 32 0

/-- The parse of the method definition "m(address a)", used as a
concrete witness fixture. -/
def methodMAddr : MethodAndTypes :=
  ⟨⟨"m", "m(address a)", [⟨"a", "address", ArgType.address⟩]⟩, [], []⟩

/-- The canonical uint/int bit sizes 8, 16, ..., 256 admitted by the
lexer regex suffixes. -/
def canonicalIntSizes : List Nat := (List.range 32).map (fun i => 8 * (i + 1))

/-- The decimal strings 1..32 admitted as `bytesN` suffixes by the
lexer regex. -/
def canonicalBytesSuffixes : List String :=
  (List.range 32).map (fun i => toString (i + 1))

/-! ## Theorems -/

/-- The toy keccak stand-in returns 32 bytes, like the primitive it
stands in for. -/
theorem toyKeccak_length (l : List Nat) : (toyKeccak l).length = 32 := by
  simp [toyKeccak, natToBeBytes]

/-- C10: for every chain id, `near_erc712_domain` equals
keccak256(keccak256(domain type string) || keccak256("NEAR") ||
keccak256("1") || be32(chain_id)); when the hash primitive returns 32
bytes the result is 32 bytes; and repeated calls agree. -/
theorem C10_near_erc712_domain_formula (keccak : List Nat → List Nat)
    (chain_id : Nat) (hk : ∀ b, (keccak b).length = 32) :
    near_erc712_domain keccak chain_id =
      keccak (keccak (strBytes
          "EIP712Domain(string name,string version,uint256 chainId)") ++
        keccak (strBytes "NEAR") ++ keccak (strBytes "1") ++
        u256_to_arr chain_id) ∧
    (near_erc712_domain keccak chain_id).length = 32 ∧
    near_erc712_domain keccak chain_id = near_erc712_domain keccak chain_id := by
  refine ⟨rfl, ?_, rfl⟩
  simpa [near_erc712_domain, arr_to_u256] using hk _

/-- Witness for C10 at the toy hash primitive and chain id 1. -/
theorem C10_witness :
    near_erc712_domain toyKeccak 1 =
      toyKeccak (toyKeccak (strBytes
          "EIP712Domain(string name,string version,uint256 chainId)") ++
        toyKeccak (strBytes "NEAR") ++ toyKeccak (strBytes "1") ++
        u256_to_arr 1) ∧
    (near_erc712_domain toyKeccak 1).length = 32 ∧
    near_erc712_domain toyKeccak 1 = near_erc712_domain toyKeccak 1 :=
  C10_near_erc712_domain_formula toyKeccak 1 toyKeccak_length

/-- C9 counterpart lemma shape, stated inside the claim theorem: an
array-suffix token at the end of the token stream wraps the type the
loop has built on the prefix. -/
theorem C9_rightmost_bracket_outermost :
    parse_type "uint256[3][]" =
      Except.ok (ArgType.array none (ArgType.array (some 3) ArgType.uint)) ∧
    ∀ (L : Option Nat) (ts : List Token) (inner : Option ArgType),
      parseTypeLoop inner (ts ++ [Token.referenceType L]) =
        (match parseTypeLoop inner ts with
         | Except.ok none => Except.error ParsingError.ArgumentParseError
         | Except.ok (some t) => Except.ok (some (ArgType.array L t))
         | Except.error e => Except.error e) := by
  constructor
  · rfl
  · intro L ts
    induction ts with
    | nil => intro inner; cases inner <;> rfl
    | cons t ts ih =>
      intro inner
      cases t <;> simp only [List.cons_append, parseTypeLoop] <;>
        first
          | apply ih
          | (cases inner
             · rfl
             · apply ih)

/-- C5 counterexample: `parse_type "uint7"` does not return the
default-size `Uint` — the whole token lexes as an identifier, so the
result is `Custom "uint7"`; likewise `parse_type "bytes33"` is not
`FixedBytes 1`. -/
theorem C5_counterexample :
    parse_type "uint7" = Except.ok (ArgType.custom "uint7") ∧
    parse_type "uint7" ≠ Except.ok ArgType.uint ∧
    parse_type "bytes33" ≠ Except.ok (ArgType.byte 1) := by
  refine ⟨rfl, ?_, ?_⟩
  · intro h
    rw [show parse_type "uint7" = Except.ok (ArgType.custom "uint7")
      from rfl] at h
    simp at h
  · intro h
    rw [show parse_type "bytes33" = Except.ok (ArgType.custom "bytes33")
      from rfl] at h
    simp at h

/-- C6 counterexample: `MethodAndTypes::parse` succeeds on a method
whose argument references the undeclared `Custom "PetObj"`; the
returned `types` map is empty, so the absence is not a parse error. -/
theorem C6_counterexample :
    MethodAndTypes.parse "adopt(PetObj x)" =
      Except.ok ⟨⟨"adopt", "adopt(PetObj x)",
        [⟨"x", "PetObj", ArgType.custom "PetObj"⟩]⟩, [], []⟩ ∧
    List.lookup "PetObj"
      (⟨⟨"adopt", "adopt(PetObj x)",
        [⟨"x", "PetObj", ArgType.custom "PetObj"⟩]⟩, [],
          []⟩ : MethodAndTypes).types = none :=
  ⟨rfl, rfl⟩

/-- C6 amended: the reachable-but-undeclared custom type is not
rejected at parse time — `MethodAndTypes::parse` succeeds with the name
absent from `types` — and is instead reported as
`InvalidMetaTransactionFunctionArg` when `eip_712_hash_argument` looks
the name up while hashing a value of that type. -/
theorem C6_missing_custom_detected_at_hashing :
    MethodAndTypes.parse "adopt(PetObj x)" =
      Except.ok ⟨⟨"adopt", "adopt(PetObj x)",
        [⟨"x", "PetObj", ArgType.custom "PetObj"⟩]⟩, [], []⟩ ∧
    ∀ keccak l,
      eip_712_hash_argument keccak (ArgType.custom "PetObj")
          (RlpValue.list l) [] =
        some (Except.error ParsingError.InvalidMetaTransactionFunctionArg) := by
  refine ⟨rfl, ?_⟩
  intro keccak l
  simp [eip_712_hash_argument, List.lookup]

/-- C8: a leaf type applied to an RLP `List`, or an `Array`/`Custom`
type applied to RLP `Bytes`, is the hard error
`InvalidMetaTransactionFunctionArg`; no coercion occurs. -/
theorem C8_shape_mismatch_is_hard_error (keccak : List Nat → List Nat)
    (ty : ArgType) (value : RlpValue) (types : List (String × Method))
    (h : (isLeafType ty = true ∧ ∃ l, value = RlpValue.list l) ∨
      (isLeafType ty = false ∧ ∃ b, value = RlpValue.bytes b)) :
    eip_712_hash_argument keccak ty value types =
      some (Except.error ParsingError.InvalidMetaTransactionFunctionArg) := by
  rcases h with ⟨hleaf, l, rfl⟩ | ⟨hleaf, b, rfl⟩ <;>
    cases ty <;>
      simp_all [eip_712_hash_argument, eip_712_rlp_value, isLeafType]

/-- Witness for C8: the `String` leaf type applied to an RLP list. -/
theorem C8_witness :
    eip_712_hash_argument toyKeccak ArgType.string (RlpValue.list []) [] =
      some (Except.error ParsingError.InvalidMetaTransactionFunctionArg) :=
  C8_shape_mismatch_is_hard_error toyKeccak ArgType.string
    (RlpValue.list []) [] (Or.inl ⟨rfl, [], rfl⟩)

/-- C4: `ecrecover` on a signature whose length is not 65 bytes hits
the `assert_eq!` and panics (modelled `none`) instead of returning the
typed error the claim requires. -/
theorem C4_short_signature_panics (keccak : List Nat → List Nat)
    (recoverFn : List Nat → List Nat → Nat → Option (List Nat))
    (hash : List Nat) (signature : List Nat)
    (h : signature.length ≠ 65) :
    ecrecover keccak recoverFn hash signature = none := by
  unfold ecrecover
  rw [if_neg h]

/-- Witness for C4 at the empty signature. -/
theorem C4_witness :
    ecrecover toyKeccak recoverNone zeros32 [] = none :=
  C4_short_signature_panics toyKeccak recoverNone zeros32 [] (by decide)

/-- C2: `parse_meta_call` is not total — three panic classes, each at a
concrete input: an envelope whose fee_amount word is 2^248 panics in
`U256::as_u128`; an `address` argument whose RLP bytes are 21 bytes
long panics in `H160::from_slice`; a `Custom` struct value list longer
than the declared field list panics on the `args[i]` index. -/
theorem C2_parse_meta_call_panics :
    parse_meta_call toyKeccak rlpAlwaysErr recoverNone borshFeeTooBig
      zeros32 [] [] = none ∧
    prepare_meta_call_args toyKeccak rlpOneItem21 zeros32 []
      ⟨[], 0, 0, "", "", "m(address a)", 0, []⟩ = none ∧
    eip_712_hash_argument toyKeccak (ArgType.custom "S")
      (RlpValue.list [RlpValue.bytes [], RlpValue.bytes []])
      [("S", structS)] = none :=
  ⟨rfl, rfl, rfl⟩

/-- The digest component of every successful `prepare_meta_call_args`
result is keccak256 of the 34-byte buffer 0x19 0x01 || domain_separator
extended with that same buffer's keccak hash: the struct bytes are
dropped when the source shadows its `bytes` vector. -/
theorem prepare_ok_digest (keccak : List Nat → List Nat)
    (rlpAsList : List Nat → Except Unit (List RlpValue))
    (ds acct : List Nat) (input : InternalMetaCallArgs)
    (out : List Nat × String × List Nat)
    (h : prepare_meta_call_args keccak rlpAsList ds acct input =
      some (Except.ok out)) :
    out.1 = keccak (([0x19, 0x01] ++ ds) ++ keccak ([0x19, 0x01] ++ ds)) := by
  unfold prepare_meta_call_args at h
  cases hs : prepareStructPart keccak rlpAsList acct input with
  | none => rw [hs] at h; simp [pbind] at h
  | some r =>
    cases r with
    | error e => rw [hs] at h; simp only [pbind] at h
                 exact Except.noConfusion (Option.some.inj h)
    | ok o =>
      rw [hs] at h
      simp only [pbind] at h
      have h2 := Except.ok.inj (Option.some.inj h)
      rw [← h2]
      rfl

/-- C1: the digest returned by `prepare_meta_call_args` is not
keccak256(0x19 || 0x01 || domain_separator || hash_struct(message)):
in the hash_struct position the code hashes the unrelated buffer
keccak256(0x19 || 0x01 || domain_separator), so the NearTx struct hash
assembled in steps 1-3 never reaches the digest. -/
theorem C1_digest_hashes_unrelated_buffer (keccak : List Nat → List Nat)
    (rlpAsList : List Nat → Except Unit (List RlpValue))
    (ds acct : List Nat) (input : InternalMetaCallArgs)
    (out : List Nat × String × List Nat)
    (h : prepare_meta_call_args keccak rlpAsList ds acct input =
      some (Except.ok out)) :
    out.1 = specDigestFormula keccak ds (keccak ([0x19, 0x01] ++ ds)) := by
  rw [prepare_ok_digest keccak rlpAsList ds acct input out h]
  simp [specDigestFormula, List.append_assoc]

/-- Witness for C1 at a concrete empty-method record. -/
theorem C1_witness :
    prepare_meta_call_args toyKeccak rlpAlwaysErr zeros32 []
        ⟨[], 1, 0, "", "", "", 0, []⟩ =
      some (Except.ok (toyKeccak (([0x19, 0x01] ++ zeros32) ++
        toyKeccak ([0x19, 0x01] ++ zeros32)), "", [])) ∧
    (toyKeccak (([0x19, 0x01] ++ zeros32) ++
        toyKeccak ([0x19, 0x01] ++ zeros32)), "", ([] : List Nat)).1 =
      specDigestFormula toyKeccak zeros32
        (toyKeccak ([0x19, 0x01] ++ zeros32)) :=
  ⟨rfl, C1_digest_hashes_unrelated_buffer toyKeccak rlpAlwaysErr zeros32 []
    ⟨[], 1, 0, "", "", "", 0, []⟩ _ rfl⟩

/-- C3: the digest component of a successful `prepare_meta_call_args`
result is a function of the domain separator alone: two successful
calls sharing `domain_separator` return identical digests whatever
their account ids and call records. -/
theorem C3_digest_depends_only_on_domain (keccak : List Nat → List Nat)
    (rlp1 rlp2 : List Nat → Except Unit (List RlpValue))
    (ds a1 a2 : List Nat) (i1 i2 : InternalMetaCallArgs)
    (o1 o2 : List Nat × String × List Nat)
    (h1 : prepare_meta_call_args keccak rlp1 ds a1 i1 = some (Except.ok o1))
    (h2 : prepare_meta_call_args keccak rlp2 ds a2 i2 = some (Except.ok o2)) :
    o1.1 = o2.1 := by
  rw [prepare_ok_digest keccak rlp1 ds a1 i1 o1 h1,
    prepare_ok_digest keccak rlp2 ds a2 i2 o2 h2]

/-- Witness for C3: two records differing in account id, nonce, fee,
addresses and value share the digest. -/
theorem C3_witness :
    prepare_meta_call_args toyKeccak rlpAlwaysErr zeros32 []
        ⟨[], 1, 0, "", "", "", 0, []⟩ =
      some (Except.ok (toyKeccak (([0x19, 0x01] ++ zeros32) ++
        toyKeccak ([0x19, 0x01] ++ zeros32)), "", [])) ∧
    prepare_meta_call_args toyKeccak rlpEmptyList zeros32 [5, 6]
        ⟨[], 2, 3, "a", "b", "", 4, [7]⟩ =
      some (Except.ok (toyKeccak (([0x19, 0x01] ++ zeros32) ++
        toyKeccak ([0x19, 0x01] ++ zeros32)), "", [])) ∧
    (toyKeccak (([0x19, 0x01] ++ zeros32) ++
        toyKeccak ([0x19, 0x01] ++ zeros32)), "", ([] : List Nat)).1 =
      (toyKeccak (([0x19, 0x01] ++ zeros32) ++
        toyKeccak ([0x19, 0x01] ++ zeros32)), "", ([] : List Nat)).1 :=
  ⟨rfl, rfl, C3_digest_depends_only_on_domain toyKeccak rlpAlwaysErr
    rlpEmptyList zeros32 [] [5, 6] ⟨[], 1, 0, "", "", "", 0, []⟩
    ⟨[], 2, 3, "a", "b", "", 4, [7]⟩ _ _ rfl rfl⟩

/-- A successful `consume` pins down the head of its input. -/
theorem consume_eq_ok {cs : List Char} {c : Char} {rest : List Char}
    (h : consume cs c = Except.ok rest) : cs = c :: rest := by
  cases cs with
  | nil => exact Except.noConfusion h
  | cons c0 tl =>
    simp only [consume] at h
    by_cases hc : c0 = c
    · rw [if_pos hc] at h
      rw [hc, Except.ok.inj h]
    · rw [if_neg hc] at h
      exact Except.noConfusion h

/-- The remainder returned by `parse_ident` is a suffix of its input. -/
theorem parse_ident_drop {cs : List Char} {n : String} {r : List Char}
    (h : parse_ident cs = Except.ok (n, r)) : ∃ k, r = cs.drop k := by
  cases cs with
  | nil => exact Except.noConfusion h
  | cons c tl =>
    simp only [parse_ident] at h
    by_cases hc : is_arg_start c = true
    · rw [if_pos hc] at h
      refine ⟨(tl.takeWhile is_arg_char).length + 1, ?_⟩
      have h2 := Except.ok.inj h
      have h3 := congrArg Prod.snd h2
      simp only at h3
      rw [← h3]
      rfl
    · rw [if_neg hc] at h
      exact Except.noConfusion h

/-- A successful `Arg::parse_args` means its input starts with '('. -/
theorem parse_args_paren {cs : List Char} {args : List Arg} {r : List Char}
    (h : Arg.parse_args cs = Except.ok (args, r)) : '(' ∈ cs := by
  unfold Arg.parse_args at h
  cases hc : consume cs '(' with
  | error e => rw [hc] at h; exact Except.noConfusion h
  | ok remains =>
    rw [consume_eq_ok hc]
    exact List.mem_cons_self _ _

/-- A successfully parsed method definition contains a '('. -/
theorem methodParseParen {cs : List Char} {m : Method} {r : List Char}
    (h : Method.parse cs = Except.ok (m, r)) : '(' ∈ cs := by
  unfold Method.parse at h
  cases hi : parse_ident cs with
  | error e => simp only [hi] at h; exact Except.noConfusion h
  | ok p =>
    obtain ⟨n1, r1⟩ := p
    simp only [hi] at h
    cases ha : Arg.parse_args r1 with
    | error e => simp only [ha] at h; exact Except.noConfusion h
    | ok q =>
      obtain ⟨a1, r2⟩ := q
      obtain ⟨k, hk⟩ := parse_ident_drop hi
      have hmem : '(' ∈ r1 := parse_args_paren ha
      rw [hk] at hmem
      exact List.mem_of_mem_drop hmem

/-- A successfully parsed `MethodAndTypes` definition contains a '('. -/
theorem mtParseParen {s : String} {mt : MethodAndTypes}
    (h : MethodAndTypes.parse s = Except.ok mt) : '(' ∈ s.data := by
  unfold MethodAndTypes.parse at h
  cases hm : Method.parse s.data with
  | error e => simp only [hm] at h; exact Except.noConfusion h
  | ok p =>
    obtain ⟨m1, r1⟩ := p
    exact methodParseParen hm

/-- `find('(')` succeeds on any character list containing '('. -/
theorem exists_findIdx_paren {l : List Char} (h : '(' ∈ l) :
    ∃ i, l.findIdx? (fun c => c = '(') = some i := by
  induction l with
  | nil => cases h
  | cons a tl ih =>
    by_cases ha : a = '('
    · exact ⟨0, by simp [List.findIdx?_cons, ha]⟩
    · have h2 : '(' ∈ tl := by
        rcases List.mem_cons.mp h with h1 | h1
        · exact absurd h1.symm ha
        · exact h1
      obtain ⟨i, hi⟩ := ih h2
      exact ⟨i + 1, by simp [List.findIdx?_cons, ha, hi]⟩

/-- C7: with a non-empty method name that parses, and argument bytes
that RLP-decode to a top-level list whose length differs from the
declared argument count, `prepare_meta_call_args` returns
`ArgsLengthMismatch`. -/
theorem C7_args_length_mismatch (keccak : List Nat → List Nat)
    (rlpAsList : List Nat → Except Unit (List RlpValue))
    (ds acct : List Nat) (input : InternalMetaCallArgs)
    (mt : MethodAndTypes) (l : List RlpValue)
    (hne : input.method_name ≠ "")
    (hp : MethodAndTypes.parse input.method_name = Except.ok mt)
    (hr : rlpAsList input.args = Except.ok l)
    (hlen : mt.method.args.length ≠ l.length) :
    prepare_meta_call_args keccak rlpAsList ds acct input =
      some (Except.error ParsingError.ArgsLengthMismatch) := by
  obtain ⟨i, hi⟩ := exists_findIdx_paren (mtParseParen hp)
  simp only [prepare_meta_call_args, prepareStructPart, if_neg hne, hi,
    hp, pbind, rlp_decode, hr]
  rw [if_pos hlen]

/-- Witness for C7: one declared `address` argument against an
RLP-decoded empty list. -/
theorem C7_witness :
    ("m(address a)" ≠ "") ∧
    MethodAndTypes.parse "m(address a)" = Except.ok methodMAddr ∧
    rlpEmptyList [] = Except.ok [] ∧
    methodMAddr.method.args.length ≠ ([] : List RlpValue).length ∧
    prepare_meta_call_args toyKeccak rlpEmptyList zeros32 []
        ⟨[], 0, 0, "", "", "m(address a)", 0, []⟩ =
      some (Except.error ParsingError.ArgsLengthMismatch) :=
  ⟨by decide, rfl, rfl, by decide,
    C7_args_length_mismatch toyKeccak rlpEmptyList zeros32 []
      ⟨[], 0, 0, "", "", "m(address a)", 0, []⟩ methodMAddr []
      (by decide) rfl rfl (by decide)⟩

theorem digit_char_cases (c : Char) (h : isDigitChar c = true) :
    c = '0' ∨ c = '1' ∨ c = '2' ∨ c = '3' ∨ c = '4' ∨ c = '5' ∨ c = '6' ∨
    c = '7' ∨ c = '8' ∨ c = '9' := by
  simp only [isDigitChar, Bool.and_eq_true, decide_eq_true_eq] at h
  obtain ⟨h1, h2⟩ := h
  rw [Char.le_def] at h1 h2
  have h1' : 48 ≤ c.toNat := h1
  have h2' : c.toNat ≤ 57 := h2
  have hofn := Char.ofNat_toNat c
  have hd : c.toNat = 48 ∨ c.toNat = 49 ∨ c.toNat = 50 ∨ c.toNat = 51 ∨
      c.toNat = 52 ∨ c.toNat = 53 ∨ c.toNat = 54 ∨ c.toNat = 55 ∨
      c.toNat = 56 ∨ c.toNat = 57 := by omega
  rcases hd with hc|hc|hc|hc|hc|hc|hc|hc|hc|hc <;> rw [← hofn, hc] <;> simp

theorem digit_isIdentChar {c : Char} (h : isDigitChar c = true) :
    isIdentChar c = true := by
  rcases digit_char_cases c h with rfl|rfl|rfl|rfl|rfl|rfl|rfl|rfl|rfl|rfl <;>
    decide

theorem takeWhile_ident_digits (l : List Char)
    (h : ∀ c ∈ l, isDigitChar c = true) :
    l.takeWhile isIdentChar = l :=
  List.takeWhile_eq_self_iff.mpr (fun x hx => digit_isIdentChar (h x hx))

theorem suffixes_eq_map : canonicalIntSuffixes = canonicalIntSizes.map toString := rfl

theorem digitsToNat_canonical : ∀ m ∈ canonicalIntSizes,
    digitsToNat (toString m).data = m := by decide

theorem mem_suffixes_sizes {t : List Char}
    (h : String.mk t ∈ canonicalIntSuffixes) :
    digitsToNat t ∈ canonicalIntSizes := by
  rw [suffixes_eq_map] at h
  obtain ⟨m, hm, hms⟩ := List.mem_map.mp h
  have ht : t = (toString m).data := by
    have := congrArg String.data hms
    exact this.symm
  rw [ht, digitsToNat_canonical m hm]
  exact hm

theorem matchIntLike_lt (pre ds : List Char) (hne : ds ≠ [])
    (hcanon : String.mk ds ∉ canonicalIntSuffixes) :
    ∃ len n, matchIntLike pre (pre ++ ds) = some (len, n) ∧
      len < pre.length + ds.length := by
  have hpre : startsWithChars pre (pre ++ ds) = true := by
    rw [startsWithChars, List.isPrefixOf_iff_prefix]
    exact List.prefix_append pre ds
  have hdrop : (pre ++ ds).drop pre.length = ds := List.drop_left pre ds
  have hpos : 0 < ds.length := List.length_pos.mpr hne
  simp only [matchIntLike, hpre, if_true, hdrop]
  split
  · rename_i h3
    simp only [Bool.and_eq_true, decide_eq_true_eq] at h3
    obtain ⟨hl3, hc3⟩ := h3
    have hge : 3 ≤ ds.length := by
      have := List.length_take 3 ds
      omega
    refine ⟨pre.length + 3, digitsToNat (ds.take 3), rfl, ?_⟩
    rcases Nat.lt_or_ge 3 ds.length with hgt | hle
    · omega
    · have htk : ds.take 3 = ds := List.take_of_length_le (by omega)
      rw [htk] at hc3
      exact absurd (by simpa using hc3) hcanon
  · split
    · rename_i h2
      simp only [Bool.and_eq_true, decide_eq_true_eq] at h2
      obtain ⟨hl2, hc2⟩ := h2
      have hge : 2 ≤ ds.length := by
        have := List.length_take 2 ds
        omega
      refine ⟨pre.length + 2, digitsToNat (ds.take 2), rfl, ?_⟩
      rcases Nat.lt_or_ge 2 ds.length with hgt | hle
      · omega
      · have htk : ds.take 2 = ds := List.take_of_length_le (by omega)
        rw [htk] at hc2
        exact absurd (by simpa using hc2) hcanon
    · split
      · rename_i h1
        simp only [Bool.and_eq_true, decide_eq_true_eq] at h1
        obtain ⟨hl1, hc1⟩ := h1
        have hge : 1 ≤ ds.length := by
          have := List.length_take 1 ds
          omega
        refine ⟨pre.length + 1, digitsToNat (ds.take 1), rfl, ?_⟩
        rcases Nat.lt_or_ge 1 ds.length with hgt | hle
        · omega
        · have htk : ds.take 1 = ds := List.take_of_length_le (by omega)
          rw [htk] at hc1
          exact absurd (by simpa using hc1) hcanon
      · exact ⟨pre.length, 32, rfl, by omega⟩

theorem matchIntLike_payload {pre cs : List Char} {len n : Nat}
    (h : matchIntLike pre cs = some (len, n)) :
    n = 32 ∨ n ∈ canonicalIntSizes := by
  unfold matchIntLike at h
  split at h
  · dsimp only at h
    split at h
    · rename_i hc
      simp only [Bool.and_eq_true, decide_eq_true_eq] at hc
      have hn := (Prod.mk.inj (Option.some.inj h)).2
      right
      rw [← hn]
      exact mem_suffixes_sizes (by simpa using hc.2)
    · split at h
      · rename_i hc
        simp only [Bool.and_eq_true, decide_eq_true_eq] at hc
        have hn := (Prod.mk.inj (Option.some.inj h)).2
        right
        rw [← hn]
        exact mem_suffixes_sizes (by simpa using hc.2)
      · split at h
        · rename_i hc
          simp only [Bool.and_eq_true, decide_eq_true_eq] at hc
          have hn := (Prod.mk.inj (Option.some.inj h)).2
          right
          rw [← hn]
          exact mem_suffixes_sizes (by simpa using hc.2)
        · exact Or.inl ((Prod.mk.inj (Option.some.inj h)).2).symm
  · exact Option.noConfusion h

theorem matchFixedBytes_cases (ds : List Char) (hne : ds ≠ [])
    (hdig : ∀ c ∈ ds, isDigitChar c = true)
    (hcanon : String.mk ds ∉ canonicalBytesSuffixes) :
    ∃ len, matchFixedBytes ("bytes".data ++ ds) = some len ∧
      (len = 4 ∨ len = 6 ∨ len = 7) ∧ len < 5 + ds.length := by
  have hpre : startsWithChars "bytes".data ("bytes".data ++ ds) = true := by
    rw [startsWithChars, List.isPrefixOf_iff_prefix]
    exact List.prefix_append _ ds
  have hdrop : ("bytes".data ++ ds).drop 5 = ds := List.drop_left "bytes".data ds
  simp only [matchFixedBytes, hpre, if_true, hdrop]
  cases ds with
  | nil => exact absurd rfl hne
  | cons d1 tl =>
    cases tl with
    | nil =>
      dsimp only
      split
      · rename_i h6
        exfalso
        simp only [Bool.and_eq_true, decide_eq_true_eq] at h6
        have hd1 : isDigitChar d1 = true := hdig d1 (by simp)
        rcases digit_char_cases d1 hd1 with rfl|rfl|rfl|rfl|rfl|rfl|rfl|rfl|rfl|rfl
        · exact absurd h6.1 (by decide)
        all_goals exact hcanon (by decide)
      · refine ⟨4, rfl, Or.inl rfl, ?_⟩
        simp only [List.length_cons, List.length_nil]
        omega
    | cons d2 t =>
      dsimp only
      split
      · rename_i hc1
        simp only [Bool.and_eq_true, Bool.or_eq_true, decide_eq_true_eq] at hc1
        obtain ⟨hd1or, hd2⟩ := hc1
        cases t with
        | nil =>
          exfalso
          rcases hd1or with rfl | rfl <;>
            rcases digit_char_cases d2 hd2 with
              rfl|rfl|rfl|rfl|rfl|rfl|rfl|rfl|rfl|rfl <;>
            exact hcanon (by decide)
        | cons x xs =>
          refine ⟨7, rfl, Or.inr (Or.inr rfl), ?_⟩
          simp only [List.length_cons]
          omega
      · split
        · rename_i hc2
          simp only [Bool.and_eq_true, Bool.or_eq_true, decide_eq_true_eq] at hc2
          obtain ⟨hd1eq, hd2or⟩ := hc2
          cases t with
          | nil =>
            exfalso
            subst hd1eq
            rcases hd2or with (rfl | rfl) | rfl <;> exact hcanon (by decide)
          | cons x xs =>
            refine ⟨7, rfl, Or.inr (Or.inr rfl), ?_⟩
            simp only [List.length_cons]
            omega
        · split
          · refine ⟨6, rfl, Or.inr (Or.inl rfl), ?_⟩
            simp only [List.length_cons]
            omega
          · refine ⟨4, rfl, Or.inl rfl, ?_⟩
            simp only [List.length_cons]
            omega

theorem matchFixedBytes_payload {cs : List Char} {len : Nat}
    (h : matchFixedBytes cs = some len) (h4 : len ≠ 4) :
    1 ≤ digitsToNat ((cs.take len).drop 5) ∧
      digitsToNat ((cs.take len).drop 5) ≤ 32 := by
  have h0 : '0'.toNat = 48 := rfl
  unfold matchFixedBytes at h
  split at h
  · rename_i hpre
    obtain ⟨suf, rfl⟩ : ∃ suf, cs = "bytes".data ++ suf := by
      rw [startsWithChars, List.isPrefixOf_iff_prefix] at hpre
      obtain ⟨s, hs⟩ := hpre
      exact ⟨s, hs.symm⟩
    have hdrop : ("bytes".data ++ suf).drop 5 = suf := List.drop_left "bytes".data suf
    rw [hdrop] at h
    cases suf with
    | nil => exact absurd (Option.some.inj h).symm h4
    | cons d1 tl =>
      cases tl with
      | nil =>
        dsimp only at h
        split at h
        · rename_i h6
          simp only [Bool.and_eq_true, decide_eq_true_eq] at h6
          obtain ⟨hlo, hhi⟩ := h6
          rw [Char.le_def] at hlo hhi
          obtain rfl : len = 6 := (Option.some.inj h).symm
          have htd : (("bytes".data ++ [d1]).take 6).drop 5 = [d1] := rfl
          rw [htd]
          simp only [digitsToNat, List.foldl, h0]
          have hlo2 : 49 ≤ d1.toNat := hlo
          have hhi2 : d1.toNat ≤ 57 := hhi
          omega
        · exact absurd (Option.some.inj h).symm h4
      | cons d2 t =>
        dsimp only at h
        split at h
        · rename_i hc1
          simp only [Bool.and_eq_true, Bool.or_eq_true, decide_eq_true_eq] at hc1
          obtain ⟨hd1or, hd2⟩ := hc1
          simp only [isDigitChar, Bool.and_eq_true, decide_eq_true_eq] at hd2
          obtain ⟨hd2lo, hd2hi⟩ := hd2
          rw [Char.le_def] at hd2lo hd2hi
          obtain rfl : len = 7 := (Option.some.inj h).symm
          have htd : (("bytes".data ++ (d1 :: d2 :: t)).take 7).drop 5 =
            [d1, d2] := rfl
          rw [htd]
          simp only [digitsToNat, List.foldl, h0]
          have hb : 49 ≤ d1.toNat ∧ d1.toNat ≤ 50 := by
            rcases hd1or with rfl | rfl <;> exact ⟨by decide, by decide⟩
          have hb2a : 48 ≤ d2.toNat := hd2lo
          have hb2b : d2.toNat ≤ 57 := hd2hi
          omega
        · split at h
          · rename_i hc2
            simp only [Bool.and_eq_true, Bool.or_eq_true, decide_eq_true_eq] at hc2
            obtain ⟨hd1eq, hd2or⟩ := hc2
            obtain rfl : len = 7 := (Option.some.inj h).symm
            have htd : (("bytes".data ++ (d1 :: d2 :: t)).take 7).drop 5 =
              [d1, d2] := rfl
            rw [htd]
            simp only [digitsToNat, List.foldl, h0]
            have hb : d1.toNat = 51 := by rw [hd1eq]; rfl
            have hb2 : 48 ≤ d2.toNat ∧ d2.toNat ≤ 50 := by
              rcases hd2or with (rfl | rfl) | rfl <;> exact ⟨by decide, by decide⟩
            rw [hb]
            omega
          · split at h
            · rename_i h6
              simp only [Bool.and_eq_true, decide_eq_true_eq] at h6
              obtain ⟨hlo, hhi⟩ := h6
              rw [Char.le_def] at hlo hhi
              obtain rfl : len = 6 := (Option.some.inj h).symm
              have htd : (("bytes".data ++ (d1 :: d2 :: t)).take 6).drop 5 =
                [d1] := rfl
              rw [htd]
              simp only [digitsToNat, List.foldl, h0]
              have hlo2 : 49 ≤ d1.toNat := hlo
              have hhi2 : d1.toNat ≤ 57 := hhi
              omega
            · exact absurd (Option.some.inj h).symm h4
  · split at h
    · exact absurd (Option.some.inj h).symm h4
    · exact Option.noConfusion h

theorem foldl_best_mem (l : List (Token × Nat)) (acc : Option (Token × Nat))
    (c : Token × Nat)
    (h : l.foldl
      (fun acc c => match acc with
        | none => some c
        | some b => if c.2 > b.2 then some c else some b) acc = some c) :
    acc = some c ∨ c ∈ l := by
  induction l generalizing acc with
  | nil => exact Or.inl h
  | cons x xs ih =>
    simp only [List.foldl] at h
    rcases ih _ h with hstep | hmem
    · cases acc with
      | none =>
        dsimp only at hstep
        exact Or.inr (Option.some.inj hstep ▸ List.mem_cons_self x xs)
      | some b =>
        dsimp only at hstep
        split at hstep
        · exact Or.inr (Option.some.inj hstep ▸ List.mem_cons_self x xs)
        · exact Or.inl hstep
    · exact Or.inr (List.mem_cons_of_mem x hmem)

theorem nextToken_payload (cs : List Char) (tok : Token)
    (htok : (nextToken cs).1 = tok) :
    (∀ n, tok = Token.uintTok n → n = 32 ∨ n ∈ canonicalIntSizes) ∧
    (∀ n, tok = Token.intTok n → n = 32 ∨ n ∈ canonicalIntSizes) ∧
    (∀ n, tok = Token.fixedBytes n → 1 ≤ n ∧ n ≤ 32) := by
  unfold nextToken at htok
  dsimp only at htok
  split at htok
  case h_2 =>
    rw [← htok]
    refine ⟨?_, ?_, ?_⟩ <;> intro n hn <;> exact Token.noConfusion hn
  case h_1 =>
    rename_i tok0 p heq
    rcases foldl_best_mem _ _ _ heq with hacc | hmem
    · exact Option.noConfusion hacc
    · dsimp only at htok
      subst htok
      simp only [List.mem_append] at hmem
      rcases hmem with ((((((((h | h) | h) | h) | h) | h) | h) | h) | h)
      · split at h
        · simp only [List.mem_singleton] at h
          obtain ⟨h1, h2⟩ := Prod.mk.inj h
          refine ⟨?_, ?_, ?_⟩ <;> intro n hn <;> rw [h1] at hn
          · exact Token.noConfusion hn
          · exact Token.noConfusion hn
          · obtain rfl := Token.fixedBytes.inj hn
            exact ⟨by omega, by omega⟩
        · rename_i len hguard heq2
          simp only [List.mem_singleton] at h
          obtain ⟨h1, h2⟩ := Prod.mk.inj h
          refine ⟨?_, ?_, ?_⟩ <;> intro n hn <;> rw [h1] at hn
          · exact Token.noConfusion hn
          · exact Token.noConfusion hn
          · obtain rfl := Token.fixedBytes.inj hn
            exact matchFixedBytes_payload heq2 hguard
        · simp at h
      · split at h
        · rename_i len n2 heq2
          simp only [List.mem_singleton] at h
          obtain ⟨h1, h2⟩ := Prod.mk.inj h
          refine ⟨?_, ?_, ?_⟩ <;> intro n hn <;> rw [h1] at hn
          · obtain rfl := Token.uintTok.inj hn
            exact matchIntLike_payload heq2
          · exact Token.noConfusion hn
          · exact Token.noConfusion hn
        · simp at h
      · split at h
        · rename_i len n2 heq2
          simp only [List.mem_singleton] at h
          obtain ⟨h1, h2⟩ := Prod.mk.inj h
          refine ⟨?_, ?_, ?_⟩ <;> intro n hn <;> rw [h1] at hn
          · exact Token.noConfusion hn
          · obtain rfl := Token.intTok.inj hn
            exact matchIntLike_payload heq2
          · exact Token.noConfusion hn
        · simp at h
      · split at h
        · rename_i len heq2
          simp only [List.mem_singleton] at h
          obtain ⟨h1, h2⟩ := Prod.mk.inj h
          refine ⟨?_, ?_, ?_⟩ <;> intro n hn <;> rw [h1] at hn <;>
            exact Token.noConfusion hn
        · simp at h
      · split at h
        · rename_i len heq2
          simp only [List.mem_singleton] at h
          obtain ⟨h1, h2⟩ := Prod.mk.inj h
          refine ⟨?_, ?_, ?_⟩ <;> intro n hn <;> rw [h1] at hn <;>
            exact Token.noConfusion hn
        · simp at h
      · split at h
        · rename_i len heq2
          simp only [List.mem_singleton] at h
          obtain ⟨h1, h2⟩ := Prod.mk.inj h
          refine ⟨?_, ?_, ?_⟩ <;> intro n hn <;> rw [h1] at hn <;>
            exact Token.noConfusion hn
        · simp at h
      · split at h
        · rename_i len heq2
          simp only [List.mem_singleton] at h
          obtain ⟨h1, h2⟩ := Prod.mk.inj h
          refine ⟨?_, ?_, ?_⟩ <;> intro n hn <;> rw [h1] at hn <;>
            exact Token.noConfusion hn
        · simp at h
      · split at h
        · rename_i len payload heq2
          simp only [List.mem_singleton] at h
          obtain ⟨h1, h2⟩ := Prod.mk.inj h
          refine ⟨?_, ?_, ?_⟩ <;> intro n hn <;> rw [h1] at hn <;>
            exact Token.noConfusion hn
        · simp at h
      · split at h
        · rename_i len heq2
          simp only [List.mem_singleton] at h
          obtain ⟨h1, h2⟩ := Prod.mk.inj h
          refine ⟨?_, ?_, ?_⟩ <;> intro n hn <;> rw [h1] at hn <;>
            exact Token.noConfusion hn
        · simp at h

theorem lexAux_nil (fuel : Nat) : lexAux fuel [] = [] := by
  cases fuel <;> rfl

theorem lexAux_mem {t : Token} :
    ∀ (fuel : Nat) (cs : List Char), t ∈ lexAux fuel cs →
      ∃ cs2, (nextToken cs2).1 = t := by
  intro fuel
  induction fuel with
  | zero => intro cs h; simp [lexAux] at h
  | succ m ih =>
    intro cs h
    cases cs with
    | nil => rw [lexAux_nil] at h; simp at h
    | cons c tl =>
      cases hnt : nextToken (c :: tl) with
      | mk tok len =>
        simp only [lexAux, hnt] at h
        rcases List.mem_cons.mp h with rfl | hrest
        · exact ⟨c :: tl, by rw [hnt]⟩
        · exact ih _ hrest

theorem lexTokens_payload (s : String) :
    (∀ n, Token.uintTok n ∈ lexTokens s → n = 32 ∨ n ∈ canonicalIntSizes) ∧
    (∀ n, Token.intTok n ∈ lexTokens s → n = 32 ∨ n ∈ canonicalIntSizes) ∧
    (∀ n, Token.fixedBytes n ∈ lexTokens s → 1 ≤ n ∧ n ≤ 32) := by
  refine ⟨?_, ?_, ?_⟩ <;> intro n hmem <;>
    obtain ⟨cs2, hcs⟩ := lexAux_mem _ _ hmem
  · exact (nextToken_payload cs2 _ hcs).1 n rfl
  · exact (nextToken_payload cs2 _ hcs).2.1 n rfl
  · exact (nextToken_payload cs2 _ hcs).2.2 n rfl

theorem takeWhile_tail_digits (pre : List Char) (ds : List Char)
    (hpre : ∀ c ∈ pre, isIdentChar c = true)
    (hdig : ∀ c ∈ ds, isDigitChar c = true) :
    (pre ++ ds).takeWhile isIdentChar = pre ++ ds := by
  rw [List.takeWhile_eq_self_iff]
  intro x hx
  rcases List.mem_append.mp hx with hx | hx
  · exact hpre x hx
  · exact digit_isIdentChar (hdig x hx)

theorem nextToken_uintShape (ds : List Char) (hne : ds ≠ [])
    (hdig : ∀ c ∈ ds, isDigitChar c = true)
    (hcanon : String.mk ds ∉ canonicalIntSuffixes) :
    nextToken ('u' :: 'i' :: 'n' :: 't' :: ds) =
      (Token.identifier (String.mk ('u' :: 'i' :: 'n' :: 't' :: ds)),
        ('u' :: 'i' :: 'n' :: 't' :: ds).length) := by
  obtain ⟨len, n, hm, hlt⟩ := matchIntLike_lt "uint".data ds hne hcanon
  have hm2 : matchIntLike "uint".data ('u' :: 'i' :: 'n' :: 't' :: ds) =
      some (len, n) := hm
  have hlt2 : len < 4 + ds.length := hlt
  have hfb : matchFixedBytes ('u' :: 'i' :: 'n' :: 't' :: ds) = none := rfl
  have hint : matchIntLike "int".data ('u' :: 'i' :: 'n' :: 't' :: ds) =
      none := rfl
  have hbool : matchLit "bool".data ('u' :: 'i' :: 'n' :: 't' :: ds) =
      none := rfl
  have haddr : matchLit "address".data ('u' :: 'i' :: 'n' :: 't' :: ds) =
      none := rfl
  have hbys : matchLit "bytes".data ('u' :: 'i' :: 'n' :: 't' :: ds) =
      none := rfl
  have hstr : matchLit "string".data ('u' :: 'i' :: 'n' :: 't' :: ds) =
      none := rfl
  have href : matchReference ('u' :: 'i' :: 'n' :: 't' :: ds) = none := rfl
  have htw : ('i' :: 'n' :: 't' :: ds).takeWhile isIdentChar =
      'i' :: 'n' :: 't' :: ds := by
    have := takeWhile_tail_digits ['i', 'n', 't'] ds (by decide) hdig
    simpa using this
  have hid : matchIdentifier ('u' :: 'i' :: 'n' :: 't' :: ds) =
      some (1 + (('i' :: 'n' :: 't' :: ds).takeWhile isIdentChar).length) :=
    rfl
  rw [htw] at hid
  have hlen : 1 + ('i' :: 'n' :: 't' :: ds).length =
      ('u' :: 'i' :: 'n' :: 't' :: ds).length := by
    simp only [List.length_cons]
    omega
  rw [hlen] at hid
  have htake : ('u' :: 'i' :: 'n' :: 't' :: ds).take
      ('u' :: 'i' :: 'n' :: 't' :: ds).length =
      'u' :: 'i' :: 'n' :: 't' :: ds := List.take_length _
  have hcmp : ('u' :: 'i' :: 'n' :: 't' :: ds).length > len := by
    simp only [List.length_cons]
    omega
  simp only [nextToken, hfb, hm2, hint, hbool, haddr, hbys, hstr, href, hid,
    htake, List.nil_append, List.cons_append, List.append_nil,
    List.singleton_append, List.foldl]
  rw [if_pos hcmp]

theorem nextToken_intShape (ds : List Char) (hne : ds ≠ [])
    (hdig : ∀ c ∈ ds, isDigitChar c = true)
    (hcanon : String.mk ds ∉ canonicalIntSuffixes) :
    nextToken ('i' :: 'n' :: 't' :: ds) =
      (Token.identifier (String.mk ('i' :: 'n' :: 't' :: ds)),
        ('i' :: 'n' :: 't' :: ds).length) := by
  obtain ⟨len, n, hm, hlt⟩ := matchIntLike_lt "int".data ds hne hcanon
  have hm2 : matchIntLike "int".data ('i' :: 'n' :: 't' :: ds) =
      some (len, n) := hm
  have hlt2 : len < 3 + ds.length := hlt
  have hfb : matchFixedBytes ('i' :: 'n' :: 't' :: ds) = none := rfl
  have huint : matchIntLike "uint".data ('i' :: 'n' :: 't' :: ds) =
      none := rfl
  have hbool : matchLit "bool".data ('i' :: 'n' :: 't' :: ds) = none := rfl
  have haddr : matchLit "address".data ('i' :: 'n' :: 't' :: ds) =
      none := rfl
  have hbys : matchLit "bytes".data ('i' :: 'n' :: 't' :: ds) = none := rfl
  have hstr : matchLit "string".data ('i' :: 'n' :: 't' :: ds) = none := rfl
  have href : matchReference ('i' :: 'n' :: 't' :: ds) = none := rfl
  have htw : ('n' :: 't' :: ds).takeWhile isIdentChar = 'n' :: 't' :: ds := by
    have := takeWhile_tail_digits ['n', 't'] ds (by decide) hdig
    simpa using this
  have hid : matchIdentifier ('i' :: 'n' :: 't' :: ds) =
      some (1 + (('n' :: 't' :: ds).takeWhile isIdentChar).length) := rfl
  rw [htw] at hid
  have hlen : 1 + ('n' :: 't' :: ds).length =
      ('i' :: 'n' :: 't' :: ds).length := by
    simp only [List.length_cons]
    omega
  rw [hlen] at hid
  have htake : ('i' :: 'n' :: 't' :: ds).take
      ('i' :: 'n' :: 't' :: ds).length = 'i' :: 'n' :: 't' :: ds :=
    List.take_length _
  have hcmp : ('i' :: 'n' :: 't' :: ds).length > len := by
    simp only [List.length_cons]
    omega
  simp only [nextToken, hfb, hm2, huint, hbool, haddr, hbys, hstr, href, hid,
    htake, List.nil_append, List.cons_append, List.append_nil,
    List.singleton_append, List.foldl]
  rw [if_pos hcmp]

theorem nextToken_bytesShape (ds : List Char) (hne : ds ≠ [])
    (hdig : ∀ c ∈ ds, isDigitChar c = true)
    (hcanon : String.mk ds ∉ canonicalBytesSuffixes) :
    nextToken ('b' :: 'y' :: 't' :: 'e' :: 's' :: ds) =
      (Token.identifier (String.mk ('b' :: 'y' :: 't' :: 'e' :: 's' :: ds)),
        ('b' :: 'y' :: 't' :: 'e' :: 's' :: ds).length) := by
  obtain ⟨len, hm, hl47, hlt⟩ := matchFixedBytes_cases ds hne hdig hcanon
  have hm2 : matchFixedBytes ('b' :: 'y' :: 't' :: 'e' :: 's' :: ds) =
      some len := hm
  have hlt2 : len < 5 + ds.length := hlt
  have huint : matchIntLike "uint".data
      ('b' :: 'y' :: 't' :: 'e' :: 's' :: ds) = none := rfl
  have hint : matchIntLike "int".data
      ('b' :: 'y' :: 't' :: 'e' :: 's' :: ds) = none := rfl
  have hbool : matchLit "bool".data
      ('b' :: 'y' :: 't' :: 'e' :: 's' :: ds) = none := rfl
  have haddr : matchLit "address".data
      ('b' :: 'y' :: 't' :: 'e' :: 's' :: ds) = none := rfl
  have hbys : matchLit "bytes".data
      ('b' :: 'y' :: 't' :: 'e' :: 's' :: ds) = some 5 := by
    simp [matchLit, startsWithChars, List.isPrefixOf]
  have hstr : matchLit "string".data
      ('b' :: 'y' :: 't' :: 'e' :: 's' :: ds) = none := rfl
  have href : matchReference ('b' :: 'y' :: 't' :: 'e' :: 's' :: ds) =
      none := rfl
  have htw : ('y' :: 't' :: 'e' :: 's' :: ds).takeWhile isIdentChar =
      'y' :: 't' :: 'e' :: 's' :: ds := by
    have := takeWhile_tail_digits ['y', 't', 'e', 's'] ds (by decide) hdig
    simpa using this
  have hid : matchIdentifier ('b' :: 'y' :: 't' :: 'e' :: 's' :: ds) =
      some (1 + (('y' :: 't' :: 'e' :: 's' :: ds).takeWhile
        isIdentChar).length) := rfl
  rw [htw] at hid
  have hlen : 1 + ('y' :: 't' :: 'e' :: 's' :: ds).length =
      ('b' :: 'y' :: 't' :: 'e' :: 's' :: ds).length := by
    simp only [List.length_cons]
    omega
  rw [hlen] at hid
  have htake : ('b' :: 'y' :: 't' :: 'e' :: 's' :: ds).take
      ('b' :: 'y' :: 't' :: 'e' :: 's' :: ds).length =
      'b' :: 'y' :: 't' :: 'e' :: 's' :: ds := List.take_length _
  have hpos : 0 < ds.length := List.length_pos.mpr hne
  rcases hl47 with rfl | rfl | rfl
  · simp only [nextToken, hm2, huint, hint, hbool, haddr, hbys, hstr, href,
      hid, htake, List.nil_append, List.cons_append, List.append_nil,
      List.singleton_append, List.foldl]
    dsimp only
    rw [if_pos (by omega : (5 : Nat) > 4)]
    dsimp only
    rw [if_pos (by simp only [List.length_cons]; omega :
      ('b' :: 'y' :: 't' :: 'e' :: 's' :: ds).length > 5)]
  · simp only [nextToken, hm2, huint, hint, hbool, haddr, hbys, hstr, href,
      hid, htake, List.nil_append, List.cons_append, List.append_nil,
      List.singleton_append, List.foldl]
    dsimp only
    rw [if_neg (by omega : ¬ (5 : Nat) > 6)]
    dsimp only
    rw [if_pos (by simp only [List.length_cons]; omega :
      ('b' :: 'y' :: 't' :: 'e' :: 's' :: ds).length > 6)]
  · simp only [nextToken, hm2, huint, hint, hbool, haddr, hbys, hstr, href,
      hid, htake, List.nil_append, List.cons_append, List.append_nil,
      List.singleton_append, List.foldl]
    dsimp only
    rw [if_neg (by omega : ¬ (5 : Nat) > 7)]
    dsimp only
    rw [if_pos (by simp only [List.length_cons]; omega :
      ('b' :: 'y' :: 't' :: 'e' :: 's' :: ds).length > 7)]

theorem lexTokens_single (cs : List Char) (tok : Token) (hne : cs ≠ [])
    (h : nextToken cs = (tok, cs.length)) :
    lexTokens (String.mk cs) = [tok] := by
  show lexAux cs.length cs = [tok]
  cases cs with
  | nil => exact absurd rfl hne
  | cons c tl =>
    show lexAux (tl.length + 1) (c :: tl) = [tok]
    simp only [lexAux, h]
    have hmax : max ((c :: tl).length) 1 = (c :: tl).length :=
      Nat.max_eq_left (by simp)
    rw [hmax, List.drop_length, lexAux_nil]

theorem parse_type_custom_of_lex (s s2 : String)
    (h : lexTokens s = [Token.identifier s2]) :
    parse_type s = Except.ok (ArgType.custom s2) := by
  unfold parse_type
  rw [h]
  rfl

/-- C5 amended: a numeric suffix outside the canonical ranges makes the
whole word lex as one identifier under maximal munch, so `parse_type`
on "uint"/"int"/"bytes" followed by any such digit string succeeds with
`Custom` of the full text — never a default-size `Uint`/`Int`/
`FixedBytes` and never an error; and the default-size fallbacks of the
lexer callbacks are unreachable: every `Uint`/`Int` token the lexer
ever emits carries 32 (the bare-prefix default) or a canonical size,
and every `FixedBytes` token carries a size in 1..32. -/
theorem C5_out_of_range_suffix_is_custom :
    (∀ ds : List Char, ds ≠ [] → (∀ c ∈ ds, isDigitChar c = true) →
      String.mk ds ∉ canonicalIntSuffixes →
      parse_type ("uint" ++ String.mk ds) =
        Except.ok (ArgType.custom ("uint" ++ String.mk ds)) ∧
      parse_type ("int" ++ String.mk ds) =
        Except.ok (ArgType.custom ("int" ++ String.mk ds))) ∧
    (∀ ds : List Char, ds ≠ [] → (∀ c ∈ ds, isDigitChar c = true) →
      String.mk ds ∉ canonicalBytesSuffixes →
      parse_type ("bytes" ++ String.mk ds) =
        Except.ok (ArgType.custom ("bytes" ++ String.mk ds))) ∧
    (∀ s n, Token.uintTok n ∈ lexTokens s →
      n = 32 ∨ n ∈ canonicalIntSizes) ∧
    (∀ s n, Token.intTok n ∈ lexTokens s →
      n = 32 ∨ n ∈ canonicalIntSizes) ∧
    (∀ s n, Token.fixedBytes n ∈ lexTokens s → 1 ≤ n ∧ n ≤ 32) := by
  refine ⟨?_, ?_, ?_, ?_, ?_⟩
  · intro ds hne hdig hcanon
    constructor
    · exact parse_type_custom_of_lex _ _
        (lexTokens_single ('u' :: 'i' :: 'n' :: 't' :: ds) _ (by simp)
          (nextToken_uintShape ds hne hdig hcanon))
    · exact parse_type_custom_of_lex _ _
        (lexTokens_single ('i' :: 'n' :: 't' :: ds) _ (by simp)
          (nextToken_intShape ds hne hdig hcanon))
  · intro ds hne hdig hcanon
    exact parse_type_custom_of_lex _ _
      (lexTokens_single ('b' :: 'y' :: 't' :: 'e' :: 's' :: ds) _ (by simp)
        (nextToken_bytesShape ds hne hdig hcanon))
  · intro s n hmem
    exact (lexTokens_payload s).1 n hmem
  · intro s n hmem
    exact (lexTokens_payload s).2.1 n hmem
  · intro s n hmem
    exact (lexTokens_payload s).2.2 n hmem

/-- Witness for C5 amended, at the concrete out-of-range suffixes 7 and
33 and the in-grammar token uint256. -/
theorem C5_amended_witness :
    ((['7'] : List Char) ≠ [] ∧ (∀ c ∈ (['7'] : List Char),
        isDigitChar c = true) ∧
      String.mk ['7'] ∉ canonicalIntSuffixes) ∧
    parse_type "uint7" = Except.ok (ArgType.custom "uint7") ∧
    parse_type "int7" = Except.ok (ArgType.custom "int7") ∧
    ((['3', '3'] : List Char) ≠ [] ∧ (∀ c ∈ (['3', '3'] : List Char),
        isDigitChar c = true) ∧
      String.mk ['3', '3'] ∉ canonicalBytesSuffixes) ∧
    parse_type "bytes33" = Except.ok (ArgType.custom "bytes33") ∧
    Token.uintTok 256 ∈ lexTokens "uint256" ∧
    (256 = 32 ∨ 256 ∈ canonicalIntSizes) :=
  ⟨⟨by decide, by decide, by decide⟩,
    (C5_out_of_range_suffix_is_custom.1 ['7'] (by decide) (by decide)
      (by decide)).1,
    (C5_out_of_range_suffix_is_custom.1 ['7'] (by decide) (by decide)
      (by decide)).2,
    ⟨by decide, by decide, by decide⟩,
    C5_out_of_range_suffix_is_custom.2.1 ['3', '3'] (by decide) (by decide)
      (by decide),
    by decide,
    C5_out_of_range_suffix_is_custom.2.2.1 "uint256" 256 (by decide)⟩

end Gateway
